import Mathlib

/-!
Verification development for the Continuity memory service.

The definitions below are shallow embeddings of the Go source:
SQLite state is modelled as explicit lists of rows, millisecond
timestamps as `ℤ`, REAL columns and float64 relevance arithmetic as
exact `ℚ`, and the float64 search/score arithmetic (which uses
`math.Sqrt` / `math.Log2`) as exact `ℝ`.  Go byte-level string
operations are modelled at character level (faithful on ASCII data).
-/

set_option maxRecDepth 100000

namespace Continuity

attribute [local semireducible] Rat.add Rat.mul Rat.sub Rat.inv Rat.ofScientific

/-- Model of `store.MemNode` (internal/store/nodes.go). -/
structure MemNode where
  ID : ℤ
  URI : String
  ParentURI : String
  NodeType : String
  Category : String
  L0Abstract : String
  L1Overview : String
  L2Content : String
  Mergeable : Bool
  MergedFrom : String
  Relevance : ℚ
  LastAccess : Option ℤ
  AccessCount : ℤ
  SourceSession : String
  CreatedAt : ℤ
  UpdatedAt : ℤ
deriving DecidableEq

/-- The reserved relational-profile URI (internal/engine/relational.go). -/
def relationalURI : String := "mem://user/profile/communication"

/-- Function `mergeableCategories` map from internal/store/nodes.go. -/
def mergeableCategories (c : String) : Bool :=
  c == "profile" || c == "preferences" || c == "patterns"

/-- Function `bigrams` from internal/store/nodes.go: the set of character bigrams of
a string (`nil` for strings shorter than two); Go's `map[string]bool` set
semantics is modelled by a deduplicated list. -/
def bigrams (s : String) : List (Char × Char) :=
  if s.length < 2 then [] else (s.toList.zip s.toList.tail).dedup

/-- Drop whitespace from both ends of a character list. -/
def trimList (l : List Char) : List Char :=
  ((l.dropWhile Char.isWhitespace).reverse.dropWhile Char.isWhitespace).reverse

/-- Model of `strings.TrimSpace`. -/
def trimSpace (s : String) : String :=
  String.mk (trimList s.toList)

/-- Function `textNearIdentical` from internal/store/nodes.go: trims both strings,
then compares the Jaccard index of their character-bigram sets with 0.95. -/
def textNearIdentical (a b : String) : Bool :=
  let a := trimSpace a
  let b := trimSpace b
  if a == b then true
  else if a == "" || b == "" then false
  else
    let bigramsA := bigrams a
    let bigramsB := bigrams b
    if bigramsA.length == 0 || bigramsB.length == 0 then a == b
    else
      let shared := (bigramsA.filter (fun bg => bg ∈ bigramsB)).length
      let union := bigramsA.length + bigramsB.length - shared
      if union == 0 then true
      else decide ((shared : ℚ) / (union : ℚ) > 0.95)

/-- Function `splitSimple` from internal/store/nodes.go: split on a single
delimiter, accumulating the current piece left to right. -/
def splitSimple (s : List Char) (sep : Char) : List (List Char) :=
  let p := s.foldl
    (fun (acc : List (List Char) × List Char) c =>
      if c = sep then (acc.1 ++ [acc.2], []) else (acc.1, acc.2 ++ [c]))
    ([], [])
  p.1 ++ [p.2]

/-- Function `uriSegments` from internal/store/nodes.go: strip the `mem://` prefix,
split on `/`, drop empty segments. -/
def uriSegments (uri : String) : List String :=
  if uri.length ≤ "mem://".length then []
  else
    ((splitSimple (uri.toList.drop "mem://".length) '/').filter
      (fun s => s ≠ [])).map String.mk

/-- Function `joinParts` from internal/store/nodes.go. -/
def joinParts (parts : List String) : String :=
  parts.enum.foldl
    (fun acc p => if 0 < p.1 then acc ++ "/" ++ p.2 else acc ++ p.2) ""

/-- Function `parentURIOf` from internal/store/nodes.go. -/
def parentURIOf (uri : String) : String :=
  let segments := uriSegments uri
  if segments.length ≤ 1 then ""
  else "mem://" ++ joinParts (segments.take (segments.length - 1))

/-- Next autoincrement row id, modelling SQLite `INTEGER PRIMARY KEY`. -/
def nextId (store : List MemNode) : ℤ :=
  (store.map (fun n => n.ID)).foldl max 0 + 1

/-- A directory row as inserted by `EnsureParentDirs`
(internal/store/nodes.go): only uri, parent, node_type, category,
relevance and the timestamps are set; the rest take SQL defaults. -/
def mkDirNode (id : ℤ) (uri parentURI category : String) (now : ℤ) : MemNode :=
  { ID := id
    URI := uri
    ParentURI := parentURI
    NodeType := "dir"
    Category := category
    L0Abstract := ""
    L1Overview := ""
    L2Content := ""
    Mergeable := false
    MergedFrom := ""
    Relevance := 1
    LastAccess := none
    AccessCount := 0
    SourceSession := ""
    CreatedAt := now
    UpdatedAt := now }

/-- Function `EnsureParentDirs` from internal/store/nodes.go: creates the missing
directory rows covering every proper prefix of the URI. -/
def EnsureParentDirs (now : ℤ) (store : List MemNode) (uri category : String) :
    List MemNode :=
  let segments := uriSegments uri
  if segments.length ≤ 1 then store
  else
    (List.range' 1 (segments.length - 1)).foldl (fun st i =>
      let dirURI := "mem://" ++ joinParts (segments.take i)
      let parentURI := if 1 < i then "mem://" ++ joinParts (segments.take (i - 1)) else ""
      match st.find? (fun n => n.URI == dirURI) with
      | some _ => st
      | none => st ++ [mkDirNode (nextId st) dirURI parentURI category now]) store

/-- Function `GetNodeByURI` from internal/store/nodes.go. -/
def GetNodeByURI (store : List MemNode) (uri : String) : Option MemNode :=
  store.find? (fun n => n.URI == uri)

/-- Function `CreateNode` from internal/store/nodes.go: ensures parent directories,
then inserts a fresh row whose relevance, last_access, access_count and
timestamps are fixed by the INSERT regardless of the caller's struct.
The `.error` branch models the SQLite UNIQUE constraint on `uri`. -/
def CreateNode (now : ℤ) (store : List MemNode) (node : MemNode) :
    Except String (List MemNode × MemNode) :=
  let mergeable := mergeableCategories node.Category
  let store1 := EnsureParentDirs now store node.URI node.Category
  let parentURI := parentURIOf node.URI
  if store1.any (fun n => n.URI == node.URI) then
    .error "create node: UNIQUE constraint failed: mem_nodes.uri"
  else
    let stored : MemNode :=
      { node with
        ID := nextId store1
        ParentURI := parentURI
        Mergeable := mergeable
        Relevance := 1
        LastAccess := some now
        AccessCount := 0
        CreatedAt := now
        UpdatedAt := now }
    .ok (store1 ++ [stored], stored)

/-- Function `UpdateNode` from internal/store/nodes.go: rewrites the content tiers,
merged_from, source_session and updated_at of the row with the given id. -/
def UpdateNode (now : ℤ) (store : List MemNode) (node : MemNode) : List MemNode :=
  store.map (fun n =>
    if n.ID == node.ID then
      { n with
        L0Abstract := node.L0Abstract
        L1Overview := node.L1Overview
        L2Content := node.L2Content
        MergedFrom := node.MergedFrom
        SourceSession := node.SourceSession
        UpdatedAt := now }
    else n)

/-- Function `UpsertNode` from internal/store/nodes.go. -/
def UpsertNode (now : ℤ) (store : List MemNode) (node : MemNode) :
    Except String (List MemNode) :=
  match GetNodeByURI store node.URI with
  | none => (CreateNode now store node).map (fun r => r.1)
  | some existing =>
    if existing.Mergeable then
      if textNearIdentical existing.L1Overview node.L1Overview &&
          textNearIdentical existing.L0Abstract node.L0Abstract then
        .ok store
      else
        .ok (UpdateNode now store
          { existing with
            L0Abstract := node.L0Abstract
            L1Overview := node.L1Overview
            L2Content := node.L2Content
            SourceSession := node.SourceSession })
    else
      (CreateNode now store { node with URI := node.URI ++ "-" ++ toString now }).map
        (fun r => r.1)

/-- Function `TouchNode` from internal/store/nodes.go: one UPDATE setting
`last_access = now`, `access_count += 1`, `relevance = 1.0` on the row
with the given uri. -/
def TouchNode (now : ℤ) (store : List MemNode) (uri : String) : List MemNode :=
  store.map (fun n =>
    if n.URI == uri then
      { n with
        LastAccess := some now
        AccessCount := n.AccessCount + 1
        Relevance := 1 }
    else n)

/-- Model of `store.Session` (internal/store/sessions.go). -/
structure Session where
  ID : ℤ
  SessionID : String
  Project : String
  StartedAt : ℤ
  EndedAt : Option ℤ
  Status : String
  SummaryNode : Option ℤ
  MessageCount : ℤ
  ToolCount : ℤ
  ExtractedAt : Option ℤ
deriving DecidableEq

/-- Next autoincrement session row id. -/
def nextSessionId (sessions : List Session) : ℤ :=
  (sessions.map (fun s => s.ID)).foldl max 0 + 1

/-- Function `InitSession` from internal/store/sessions.go: looks up a row with the
given session_id AND `status = 'active'`; if none matches it runs a plain
INSERT, which the `session_id TEXT NOT NULL UNIQUE` constraint of the
`sessions` table (internal/store/db.go, migration 2) rejects whenever any
row — in particular a completed one — already carries that session_id. -/
def InitSession (now : ℤ) (sessions : List Session) (sessionID project : String) :
    Except String (List Session × Session) :=
  match sessions.find? (fun s => s.SessionID == sessionID && s.Status == "active") with
  | some s => .ok (sessions, s)
  | none =>
    if sessions.any (fun s => s.SessionID == sessionID) then
      .error "insert session: UNIQUE constraint failed: sessions.session_id"
    else
      let s : Session :=
        { ID := nextSessionId sessions
          SessionID := sessionID
          Project := project
          StartedAt := now
          EndedAt := none
          Status := "active"
          SummaryNode := none
          MessageCount := 0
          ToolCount := 0
          ExtractedAt := none }
      .ok (sessions ++ [s], s)

/-- Function `CompleteSession` from internal/store/sessions.go: marks the active row
with the given session_id completed. -/
def CompleteSession (now : ℤ) (sessions : List Session) (sessionID : String) :
    Except String (List Session) :=
  if sessions.any (fun s => s.SessionID == sessionID && s.Status == "active") then
    .ok (sessions.map (fun s =>
      if s.SessionID == sessionID && s.Status == "active" then
        { s with Status := "completed", EndedAt := some now }
      else s))
  else
    .error "no active session found"

/-- The 20-term Taylor expansion loop of `exp` (internal/store/nodes.go):
`result = 1; term = 1; for i in 1..20 { term *= x/i; result += term }`. -/
def expTaylor (x : ℚ) : ℚ :=
  ((List.range' 1 20).foldl
    (fun (p : ℚ × ℚ) i =>
      let term := p.2 * (x / (i : ℚ))
      (p.1 + term, term)) (1, 1)).1

/-- The argument-reduction loop of `exp` (internal/store/nodes.go):
`for x > 1 || x < -1 { x /= 2; n *= 2 }`, written with explicit fuel.
The loop body halves `|x|`, and `exp` only reaches it with `|x| ≤ 700`,
so at most 10 iterations ever run: fuel 64 never runs out on the inputs
the source can produce, and the two functions agree there. -/
def reduceHalf : ℕ → ℚ → ℕ → ℚ × ℕ
  | 0, x, n => (x, n)
  | fuel + 1, x, n =>
    if 1 < x ∨ x < -1 then reduceHalf fuel (x / 2) (2 * n) else (x, n)

/-- The final squaring loop of `exp` (internal/store/nodes.go):
`for n > 1 { result *= result; n /= 2 }`, with the same fuel discipline
as `reduceHalf` (`n` is `2 ^ iterations` of that loop, so at most `2 ^ 10`
on reachable inputs and fuel 64 never runs out). -/
def squareN : ℕ → ℚ → ℕ → ℚ
  | 0, r, _ => r
  | fuel + 1, r, n => if 1 < n then squareN fuel (r * r) (n / 2) else r

/-- Function `exp` from internal/store/nodes.go: range guard, argument reduction,
20-term Taylor series, repeated squaring.  The Go float64 arithmetic is
modelled exactly over `ℚ` (the literal `1e308` becomes `10 ^ 308`). -/
def exp (x : ℚ) : ℚ :=
  if x > 700 then (10 : ℚ) ^ (308 : ℕ)
  else if x < -700 then 0
  else
    let p := reduceHalf 64 x 1
    squareN 64 (expTaylor p.1) p.2

/-- Function `pow05` from internal/store/nodes.go: `0.5^x = exp(-x * ln 2)` with the
source's constant for `ln 2`. -/
def pow05 (x : ℚ) : ℚ :=
  exp (-x * 0.6931471805599453)

/-- The 90-day half life in milliseconds (internal/store/nodes.go). -/
def halfLifeMs : ℚ := 90 * 24 * 60 * 60 * 1000

/-- The per-row body of `DecayAllNodes` (internal/store/nodes.go): rows
that are not leaves or carry the reserved relational URI are outside the
query and untouched; otherwise take `ref = last_access ?? created_at`,
skip unless `now - ref > 0`, floor the decayed value at 0.1, and write
it only when it is strictly below the current relevance. -/
def decayNode (now : ℤ) (n : MemNode) : MemNode :=
  if n.NodeType = "leaf" ∧ n.URI ≠ relationalURI then
    let refTime := n.LastAccess.getD n.CreatedAt
    let elapsed : ℚ := ((now - refTime : ℤ) : ℚ)
    if elapsed ≤ 0 then n
    else
      let decay := pow05 (elapsed / halfLifeMs)
      let newRelevance := if decay < 0.1 then (0.1 : ℚ) else decay
      if newRelevance ≥ n.Relevance then n
      else { n with Relevance := newRelevance }
  else n

/-- Function `DecayAllNodes` from internal/store/nodes.go. -/
def DecayAllNodes (now : ℤ) (store : List MemNode) : List MemNode :=
  store.map (decayNode now)

/-- Model of `transcript.ParsedEntry` (internal/transcript/parser.go);
the Go field `Type` is rendered `type`. -/
structure ParsedEntry where
  type : String
  Role : String
  Text : String
deriving DecidableEq

/-- Function `CountUserMessages` from internal/transcript/parser.go. -/
def CountUserMessages (entries : List ParsedEntry) : ℕ :=
  (entries.filter (fun e => e.type == "user")).length

/-- Function `Condense` from internal/transcript/condenser.go: all user messages
verbatim, first and last assistant messages truncated at 1000 characters,
middle ones at 200, every entry followed by a blank line, the whole
trimmed.  Go byte-slicing `a.Text[:limit]` is modelled as character
`take` (identical on ASCII). -/
def Condense (entries : List ParsedEntry) : String :=
  if entries.isEmpty then ""
  else
    let userMsgs := entries.filter (fun e => e.type == "user")
    let assistantMsgs := entries.filter (fun e => e.type == "assistant")
    let userPart : List Char := userMsgs.foldl
      (fun acc u => acc ++ "[USER] ".toList ++ u.Text.toList ++ "\n\n".toList) []
    let asstPart : List Char := assistantMsgs.enum.foldl
      (fun acc p =>
        let limit := if p.1 = 0 ∨ p.1 = assistantMsgs.length - 1 then 1000 else 200
        let body :=
          if limit < p.2.Text.length then p.2.Text.toList.take limit ++ "...".toList
          else p.2.Text.toList
        acc ++ "[ASSISTANT] ".toList ++ body ++ "\n\n".toList) []
    String.mk (trimList (userPart ++ asstPart))

/-- Model of `engine.memoryCandidate` (internal/engine/extractor.go). -/
structure memoryCandidate where
  Category : String
  URIHint : String
  L0 : String
  L1 : String
  L2 : String
  MergeTarget : String
deriving DecidableEq

/-- Function `validCategories` from internal/engine/extractor.go. -/
def validCategories (c : String) : Bool :=
  c == "profile" || c == "preferences" || c == "entities" ||
    c == "events" || c == "patterns" || c == "cases"

/-- Function `ownerForCategory` from internal/engine/extractor.go. -/
def ownerForCategory (category : String) : String :=
  if category = "patterns" ∨ category = "cases" then "agent" else "user"

/-- Function `validURIHintChar` from internal/engine/validate.go. -/
def validURIHintChar (r : Char) : Bool :=
  ('a' ≤ r ∧ r ≤ 'z') ∨ ('0' ≤ r ∧ r ≤ '9') ∨ r = '-' ∨ r = '_'

/-- Model of `strings.Trim(s, cutset)` for a character cutset. -/
def trimCharSet (l : List Char) (cutset : List Char) : List Char :=
  ((l.dropWhile (fun c => c ∈ cutset)).reverse.dropWhile (fun c => c ∈ cutset)).reverse

/-- Function `sanitizeURIHint` from internal/engine/validate.go: trim, lowercase,
keep `[a-z0-9_-]`, collapse space/dot/slash runs to a single hyphen, drop
everything else, then trim `-` and `_` from both ends. -/
def sanitizeURIHint (hint : String) : String :=
  let hint := trimSpace hint
  if hint = "" then ""
  else
    let p := (hint.toList.map Char.toLower).foldl
      (fun (acc : List Char × Bool) r =>
        if validURIHintChar r then (acc.1 ++ [r], r = '-')
        else if r = ' ' ∨ r = '.' ∨ r = '/' then
          if ¬ acc.2 ∧ 0 < acc.1.length then (acc.1 ++ ['-'], true) else acc
        else acc)
      ([], false)
    String.mk (trimCharSet p.1 ['-', '_'])

/-- Index of the last whitespace character (`strings.LastIndexFunc` with
`unicode.IsSpace`), `-1` when there is none. -/
def lastIndexWhitespace (l : List Char) : ℤ :=
  match l.reverse.findIdx? Char.isWhitespace with
  | some j => (l.length : ℤ) - 1 - (j : ℤ)
  | none => -1

/-- Function `truncateClean` from internal/engine/validate.go: cut at `maxLen`,
back up to the last whitespace if it falls within the final 200
characters, and trim. -/
def truncateClean (s : String) (maxLen : ℕ) : String :=
  if s.length ≤ maxLen then s
  else
    let truncated := s.toList.take maxLen
    let idx := lastIndexWhitespace truncated
    let truncated :=
      if (maxLen : ℤ) - 200 < idx then truncated.take idx.toNat else truncated
    trimSpace (String.mk truncated)

/-- Function `validateCandidate` from internal/engine/validate.go. -/
def validateCandidate (c : memoryCandidate) : Except String memoryCandidate :=
  if ¬ validCategories c.Category then .error "invalid category"
  else
    let c := { c with URIHint := sanitizeURIHint c.URIHint }
    if c.URIHint = "" then .error "empty URI hint after sanitization"
    else
      let c := { c with L0 := trimSpace c.L0 }
      if c.L0 = "" then .error "empty L0 abstract"
      else
        let c := { c with L1 := trimSpace c.L1, L2 := trimSpace c.L2 }
        if c.L1.length < 20 then .error "L1 too short"
        else
          let c := if 800 < c.L0.length then { c with L0 := truncateClean c.L0 800 } else c
          let c := if 12000 < c.L1.length then { c with L1 := truncateClean c.L1 12000 } else c
          let c := if 40000 < c.L2.length then { c with L2 := truncateClean c.L2 40000 } else c
          .ok c

/-- The canonical URI of a validated candidate
(internal/engine/extractor.go, lines 159-165): owner derived from the
category, overridden by a `merge_target` that starts with `mem://`. -/
def candidateURI (c : memoryCandidate) : String :=
  let uri := "mem://" ++ ownerForCategory c.Category ++ "/" ++ c.Category ++ "/" ++ c.URIHint
  if c.MergeTarget ≠ "" ∧ "mem://".toList.isPrefixOf c.MergeTarget.toList then
    c.MergeTarget
  else uri

/-- The per-candidate pipeline of `extractMemories`
(internal/engine/extractor.go, lines 151-193): validate, compute the
canonical URI, let the similarity gate redirect it, and build the
`store.MemNode` passed to `UpsertNode`.  The embedder-and-store lookup
`findSimilarNode` is abstracted as the oracle `simMatch`; its `none`
covers the no-embedder, no-match and gate-error paths, all of which
leave the URI unchanged. -/
def processCandidate (simMatch : memoryCandidate → Option String)
    (sessionID : String) (c : memoryCandidate) : Option MemNode :=
  match validateCandidate c with
  | .error _ => none
  | .ok c =>
    let uri := candidateURI c
    let uri :=
      match simMatch c with
      | some matchURI => matchURI
      | none => uri
    some
      { ID := 0
        URI := uri
        ParentURI := ""
        NodeType := "leaf"
        Category := c.Category
        L0Abstract := c.L0
        L1Overview := c.L1
        L2Content := c.L2
        Mergeable := false
        MergedFrom := ""
        Relevance := 0
        LastAccess := none
        AccessCount := 0
        SourceSession := sessionID
        CreatedAt := 0
        UpdatedAt := 0 }

/-- Observable outcome of one `extractMemories` run: whether the LLM was
invoked, and the nodes handed to `UpsertNode`, in order. -/
structure ExtractOutcome where
  llmCalled : Bool
  upserted : List MemNode
deriving DecidableEq

/-- Function `extractMemories` from internal/engine/extractor.go, with its external
collaborators as parameters: `respContent` is the LLM completion and
`parsed` the result of `parseExtractionResponse` on it (JSON decoding is
outside the embedding).  The guards run in source order: fewer than 3
user messages, condensed shorter than 100, response shorter than 20,
parse failure; then the candidate list is capped at 3 and each candidate
runs through `processCandidate`. -/
def extractMemories (entries : List ParsedEntry) (respContent : String)
    (parsed : Except String (List memoryCandidate))
    (simMatch : memoryCandidate → Option String) (sessionID : String) :
    ExtractOutcome :=
  if CountUserMessages entries < 3 then ⟨false, []⟩
  else
    let condensed := Condense entries
    if condensed.length < 100 then ⟨false, []⟩
    else if respContent.length < 20 then ⟨true, []⟩
    else
      match parsed with
      | .error _ => ⟨true, []⟩
      | .ok candidates =>
        let candidates := if 3 < candidates.length then candidates.take 3 else candidates
        ⟨true, candidates.filterMap (processCandidate simMatch sessionID)⟩

/-- The node upserted by the relational profiler
(internal/engine/relational.go, lines 67-75). -/
def relationalProfileNode (content sessionID : String) : MemNode :=
  { ID := 0
    URI := relationalURI
    ParentURI := ""
    NodeType := "leaf"
    Category := "profile"
    L0Abstract := "Relational profile: communication style, feedback patterns, working dynamic"
    L1Overview := content
    L2Content := content
    Mergeable := false
    MergedFrom := ""
    Relevance := 0
    LastAccess := none
    AccessCount := 0
    SourceSession := sessionID
    CreatedAt := 0
    UpdatedAt := 0 }

/-- Function `extractRelational` from internal/engine/relational.go, reduced to the
node it upserts (`none` = no upsert): guards on user-message count and
condensed length, the per-session dedup check against the existing node,
then the `NO_UPDATE` / short-response skip on the trimmed completion. -/
def extractRelational (entries : List ParsedEntry) (existing : Option MemNode)
    (respContent sessionID : String) : Option MemNode :=
  if CountUserMessages entries < 3 then none
  else if (Condense entries).length < 100 then none
  else
    let alreadyProcessed :=
      match existing with
      | some node => node.SourceSession == sessionID
      | none => false
    if alreadyProcessed then none
    else
      let content := trimSpace respContent
      if content = "NO_UPDATE" ∨ content.length < 20 then none
      else some (relationalProfileNode content sessionID)

/-- The relational pipeline applied to a store: look up the reserved URI,
run `extractRelational`, and upsert its result if any. -/
def applyRelational (now : ℤ) (store : List MemNode)
    (entries : List ParsedEntry) (respContent sessionID : String) :
    Except String (List MemNode) :=
  match extractRelational entries (GetNodeByURI store relationalURI) respContent sessionID with
  | none => .ok store
  | some node => UpsertNode now store node

noncomputable section

/-- Function `nodeScore` from internal/server/context.go: relevance times an access
boost that is `1` when `access_count = 0` and `1 + log2(access_count)`
otherwise (`math.Log2` modelled as `Real.logb 2`). -/
def nodeScore (n : MemNode) : ℝ :=
  let accessBoost : ℝ :=
    if 0 < n.AccessCount then 1 + Real.logb 2 ((n.AccessCount : ℤ) : ℝ) else 1
  (n.Relevance : ℝ) * accessBoost

/-- The formula the specification states for the context ranking score:
`relevance * (1 + log2(1 + access_count))`. -/
def nodeScoreSpecFormula (n : MemNode) : ℝ :=
  (n.Relevance : ℝ) * (1 + Real.logb 2 (1 + ((n.AccessCount : ℤ) : ℝ)))

/-- One entry of the context builder's candidate pool
(`rankedItem` in internal/server/context.go). -/
structure RankedItem where
  category : String
  l0 : String
  score : ℝ

/-- Function `FindByCategory` from internal/store/nodes.go: the leaf rows of a
category, ordered by relevance descending. -/
def FindByCategory (store : List MemNode) (category : String) : List MemNode :=
  List.insertionSort (fun a b : MemNode => b.Relevance ≤ a.Relevance)
    (store.filter (fun n => n.Category == category && n.NodeType == "leaf"))

/-- The category list iterated by `buildContext` (internal/server/context.go). -/
def contextCategories : List String :=
  ["profile", "preferences", "patterns", "events", "cases", "entities"]

/-- The ranked candidate pool of `buildContext`
(internal/server/context.go, lines 40-75): every leaf of the six
categories except the relational URI, with non-empty `l0_abstract` and
relevance at least 0.3, scored by `nodeScore`, sorted descending and
capped at 15. -/
def buildContextItems (store : List MemNode) : List RankedItem :=
  let items := (contextCategories.map (fun cat =>
    (FindByCategory store cat).filterMap (fun n =>
      if n.URI == relationalURI then none
      else if n.L0Abstract == "" || decide (n.Relevance < 0.3) then none
      else some ⟨cat, n.L0Abstract, nodeScore n⟩))).flatten
  (List.insertionSort (fun a b : RankedItem => b.score ≤ a.score) items).take 15

/-- Model of `store.Vector` rows as consumed by `Find`
(model tag, dimensions and created_at are not read by the retriever). -/
structure VectorRecord where
  NodeID : ℤ
  Embedding : List ℝ

/-- Function `CosineSimilarity` from internal/engine/engine.go. -/
def CosineSimilarity (a b : List ℝ) : ℝ :=
  if a.length ≠ b.length ∨ a.length = 0 then 0
  else
    let dot := ((a.zip b).map (fun p => p.1 * p.2)).sum
    let normA := (a.map (fun x => x * x)).sum
    let normB := (b.map (fun x => x * x)).sum
    let denom := Real.sqrt normA * Real.sqrt normB
    if denom = 0 then 0 else dot / denom

/-- Model of `engine.SearchResult` (internal/engine/search.go). -/
structure SearchResult where
  Node : MemNode
  Score : ℝ
  Similarity : ℝ

/-- Model of `engine.SearchOpts` (internal/engine/search.go). -/
structure SearchOpts where
  Limit : ℤ
  Category : String

/-- Function `SearchOpts.limit()` from internal/engine/search.go. -/
def SearchOpts.limit (o : SearchOpts) : ℤ :=
  if o.Limit ≤ 0 then 10 else o.Limit

/-- Function `Find` from internal/engine/search.go: embed the query, look up each
vector's node, filter by category and node type, score by
`similarity * relevance`, drop non-positive scores, sort descending,
truncate to the limit.  The embedder is the oracle `embed`; the
`TouchNode` retrieval boost mutates the store and is applied by the
caller (`searchFold`) to the threaded node state.
This is the per-vector scoring body (internal/engine/search.go,
lines 76-100): node lookup, category and node-type filters, cosine
similarity times relevance, positive scores only. -/
def findScore (queryVec : List ℝ) (nodes : List MemNode) (opts : SearchOpts)
    (v : VectorRecord) : Option SearchResult :=
  match nodes.find? (fun n => n.ID == v.NodeID) with
  | none => none
  | some node =>
    if opts.Category ≠ "" ∧ node.Category ≠ opts.Category then none
    else if node.NodeType ≠ "leaf" then none
    else
      let similarity := CosineSimilarity queryVec v.Embedding
      let score := similarity * (node.Relevance : ℝ)
      if 0 < score then some ⟨node, score, similarity⟩ else none

/-- Function `Find` from internal/engine/search.go: score every stored vector with
`findScore`, sort descending, truncate to the limit. -/
def Find (embed : String → List ℝ) (query : String)
    (vectors : List VectorRecord) (nodes : List MemNode) (opts : SearchOpts) :
    List SearchResult :=
  if vectors.isEmpty then []
  else
    (List.insertionSort (fun a b : SearchResult => b.Score ≤ a.Score)
      (vectors.filterMap (findScore (embed query) nodes opts))).take
      opts.limit.toNat

/-- Model of `engine.subQuery` (internal/engine/search.go); the Go field
`Type` is rendered `type`. -/
structure subQuery where
  Query : String
  type : String

/-- The expanded options `Search` passes to each sub-query `Find`
(internal/engine/search.go, lines 150-153). -/
def expandedOpts (opts : SearchOpts) : SearchOpts :=
  ⟨opts.limit * 3, opts.Category⟩

/-- One step of `Search`'s dedup map (internal/engine/search.go,
lines 163-168): keep at most one result per node id, replacing only on a
strictly larger score.  Go's hash map is modelled as an assoc list in
insertion order. -/
def searchInsert (seen : List SearchResult) (r : SearchResult) : List SearchResult :=
  match seen.find? (fun s => s.Node.ID == r.Node.ID) with
  | none => seen ++ [r]
  | some existing =>
    if existing.Score < r.Score then
      seen.map (fun s => if s.Node.ID == r.Node.ID then r else s)
    else seen

/-- The sub-query loop of `Search` (internal/engine/search.go,
lines 157-169), threading the node state mutated by `Find`'s `TouchNode`
calls, the dedup map, and — as a ghost output — the concatenated stream
of all sub-query results. -/
def searchFold (embed : String → List ℝ) (vectors : List VectorRecord)
    (opts : SearchOpts) (now : ℤ) :
    List subQuery → List MemNode × List SearchResult × List SearchResult →
      List MemNode × List SearchResult × List SearchResult
  | [], st => st
  | sq :: rest, (nodes, seen, occs) =>
    let res := Find embed sq.Query vectors nodes (expandedOpts opts)
    searchFold embed vectors opts now rest
      (res.foldl (fun ns r => TouchNode now ns r.Node.URI) nodes,
       res.foldl searchInsert seen,
       occs ++ res)

/-- The sub-query list `Search` actually iterates
(internal/engine/search.go, lines 143-147): the parsed decomposition, or
the original query tagged MEMORY when it is empty. -/
def effectiveSubQueries (query : String) (subQs : List subQuery) : List subQuery :=
  if subQs.isEmpty then [⟨query, "MEMORY"⟩] else subQs

/-- The dedup map contents after `Search`'s sub-query loop. -/
def searchSeen (embed : String → List ℝ) (vectors : List VectorRecord)
    (nodes : List MemNode) (query : String) (subQs : List subQuery)
    (opts : SearchOpts) (now : ℤ) : List SearchResult :=
  (searchFold embed vectors opts now (effectiveSubQueries query subQs)
    (nodes, [], [])).2.1

/-- The concatenated stream of every sub-query result seen by `Search`. -/
def searchOccurrences (embed : String → List ℝ) (vectors : List VectorRecord)
    (nodes : List MemNode) (query : String) (subQs : List subQuery)
    (opts : SearchOpts) (now : ℤ) : List SearchResult :=
  (searchFold embed vectors opts now (effectiveSubQueries query subQs)
    (nodes, [], [])).2.2

/-- Function `buildParentScores` lookup from internal/engine/search.go: the mean
similarity of the surfaced results sharing a parent URI; `0` for the
empty URI (never inserted) and for URIs with no surfaced sibling,
matching the Go map's zero default.  Exact real addition makes the Go
map's nondeterministic summation order irrelevant. -/
def parentScore (seen : List SearchResult) (uri : String) : ℝ :=
  if uri = "" then 0
  else
    let sibs := seen.filter (fun s => s.Node.ParentURI == uri)
    if sibs.isEmpty then 0
    else ((sibs.map (fun s => s.Similarity)).sum) / ((sibs.length : ℕ) : ℝ)

/-- The re-scoring step of `Search` (internal/engine/search.go, line 178):
`score = 0.5*similarity + 0.3*relevance + 0.2*parentScore`. -/
def rescore (seen : List SearchResult) (r : SearchResult) : SearchResult :=
  { r with
    Score := 0.5 * r.Similarity + 0.3 * (r.Node.Relevance : ℝ) +
      0.2 * parentScore seen r.Node.ParentURI }

/-- Function `Search` from internal/engine/search.go: run `Find` per sub-query with
triple limit, dedup by node id keeping the larger score, re-score with
the parent-aware formula, sort descending, truncate to the limit.  The
LLM decomposition is the `subQs` parameter (the parsed response). -/
def Search (embed : String → List ℝ) (vectors : List VectorRecord)
    (nodes : List MemNode) (query : String) (subQs : List subQuery)
    (opts : SearchOpts) (now : ℤ) : List SearchResult :=
  let seen := searchSeen embed vectors nodes query subQs opts now
  let results := seen.map (rescore seen)
  (List.insertionSort (fun a b : SearchResult => b.Score ≤ a.Score) results).take
    opts.limit.toNat

end

/-- Decidable equality for `Except`, used to evaluate store operations at
concrete inputs. -/
instance {ε α : Type} [DecidableEq ε] [DecidableEq α] : DecidableEq (Except ε α) :=
  fun a b =>
  match a, b with
  | .ok x, .ok y =>
    if h : x = y then isTrue (by rw [h]) else isFalse (by intro hc; cases hc; exact h rfl)
  | .error x, .error y =>
    if h : x = y then isTrue (by rw [h]) else isFalse (by intro hc; cases hc; exact h rfl)
  | .ok _, .error _ => isFalse nofun
  | .error _, .ok _ => isFalse nofun

/-! ### Claim C10 — CreateNode column discipline -/

/-- C10: every node stored through `CreateNode` has relevance exactly 1.0,
access_count 0, and a non-null last_access equal to its created_at,
regardless of the relevance, access_count or last_access supplied in the
caller's struct; hence the decay reference `last_access ?? created_at`
always resolves through the last_access branch. -/
theorem createNode_fixed_columns (now : ℤ) (store : List MemNode) (node : MemNode)
    (store2 : List MemNode) (stored : MemNode)
    (h : CreateNode now store node = .ok (store2, stored)) :
    stored.Relevance = 1 ∧ stored.AccessCount = 0 ∧ stored.CreatedAt = now ∧
      stored.LastAccess = some stored.CreatedAt ∧
      stored.LastAccess.getD stored.CreatedAt = stored.CreatedAt := by
  unfold CreateNode at h
  dsimp only at h
  split at h
  · exact absurd h (by simp)
  · simp only [Except.ok.injEq, Prod.mk.injEq] at h
    obtain ⟨-, h2⟩ := h
    subst h2
    simp

/-- Concrete run of `createNode_fixed_columns`: a caller-supplied struct
with relevance 0, access_count 7 and a null last_access is stored with
the fixed column values. -/
def c10node : MemNode :=
  ⟨99, "mem://user/events/demo", "", "leaf", "events", "a", "b", "c",
    true, "", 0, none, 7, "s", 3, 3⟩

/-- The store and row produced by `CreateNode 5 [] c10node`. -/
def c10run : List MemNode × MemNode :=
  ((CreateNode 5 [] c10node).toOption).getD ([], c10node)

/-- Witness for C10 at a concrete input. -/
theorem createNode_fixed_columns_witness :
    c10run.2.Relevance = 1 ∧ c10run.2.AccessCount = 0 ∧ c10run.2.CreatedAt = 5 ∧
      c10run.2.LastAccess = some c10run.2.CreatedAt ∧
      c10run.2.LastAccess.getD c10run.2.CreatedAt = c10run.2.CreatedAt :=
  createNode_fixed_columns 5 [] c10node c10run.1 c10run.2 (by decide)

/-! ### Claim C3 — TouchNode -/

/-- A leaf whose last_access 100 was written in the same millisecond in
which the touch below runs. -/
def c3node : MemNode :=
  ⟨1, "mem://user/profile/x", "mem://user/profile", "leaf", "profile",
    "a", "b", "c", true, "", 1 / 2, some 100, 4, "s", 50, 50⟩

/-- C3 counterexample: touching at `now = 100` a node whose prior
last_access is 100 (same millisecond) rewrites last_access to 100, which
does not strictly exceed the prior value, refuting the claim's
"strictly exceeds ... including one set in the same millisecond". -/
theorem touchNode_same_millisecond_not_strict :
    ¬ (∀ m ∈ TouchNode 100 [c3node] "mem://user/profile/x",
        m.Relevance = 1 ∧ m.AccessCount = c3node.AccessCount + 1 ∧
          100 < m.LastAccess.getD 0) := by
  decide

/-- C3 (amended): after `TouchNode(uri)` the matching node's relevance is
1.0, its access_count is one greater, and its last_access equals the
touch time `now`; the new last_access strictly exceeds the prior value
exactly when the prior value is strictly older than `now` — a touch in
the same millisecond leaves last_access equal to the prior value rather
than strictly greater. -/
theorem touchNode_spec (now : ℤ) (store : List MemNode) (uri : String)
    (n : MemNode) (hn : n ∈ store) (huri : n.URI = uri) :
    ({ n with
        LastAccess := some now
        AccessCount := n.AccessCount + 1
        Relevance := 1 } ∈ TouchNode now store uri) ∧
    (∀ p, n.LastAccess = some p →
      (p < now ↔ ∃ q, ({ n with
        LastAccess := some now
        AccessCount := n.AccessCount + 1
        Relevance := 1 } : MemNode).LastAccess = some q ∧ p < q)) := by
  constructor
  · exact List.mem_map.mpr ⟨n, hn, by simp [TouchNode, huri]⟩
  · intro p _
    simp

/-- The node used in the C3 witness (last_access 120, older than the
touch time 200). -/
def c3wnode : MemNode :=
  ⟨2, "mem://user/events/w", "mem://user/events", "leaf", "events",
    "a", "b", "c", false, "", 1, some 120, 4, "s", 50, 50⟩

/-- Witness for the amended C3 at a concrete input. -/
theorem touchNode_spec_witness :
    ({ c3wnode with
        LastAccess := some 200
        AccessCount := c3wnode.AccessCount + 1
        Relevance := 1 } ∈ TouchNode 200 [c3wnode] "mem://user/events/w") ∧
    (∀ p, c3wnode.LastAccess = some p →
      (p < 200 ↔ ∃ q, ({ c3wnode with
        LastAccess := some 200
        AccessCount := c3wnode.AccessCount + 1
        Relevance := 1 } : MemNode).LastAccess = some q ∧ p < q)) :=
  touchNode_spec 200 [c3wnode] "mem://user/events/w" c3wnode (by decide) (by decide)

/-! ### Claim C2 — InitSession on a completed session -/

/-- The active session row created in the C2 scenario. -/
def c2active : Session :=
  ⟨1, "sess-001", "myproject", 10, none, "active", none, 0, 0, none⟩

/-- The same row after `CompleteSession` at time 20. -/
def c2completed : Session :=
  ⟨1, "sess-001", "myproject", 10, some 20, "completed", none, 0, 0, none⟩

/-- C2 evaluation at the failing input: after a session is completed,
`InitSession` on the same session_id does not reactivate it — the
active-only lookup misses, the fallback INSERT violates the
`UNIQUE(session_id)` constraint, and the call errors, contradicting the
claim (and the repo's own `TestInitSessionReactivatesCompleted`). -/
theorem initSession_completed_errors :
    InitSession 10 [] "sess-001" "myproject" = .ok ([c2active], c2active) ∧
    CompleteSession 20 [c2active] "sess-001" = .ok [c2completed] ∧
    InitSession 30 [c2completed] "sess-001" "myproject" =
      .error "insert session: UNIQUE constraint failed: sessions.session_id" := by
  decide

/-! ### Claim C9 — relational profiler frame conditions -/

/-- C9: the relational pipeline leaves the store — in particular the node
at the reserved URI, its l1_overview and source_session — untouched, and
performs no upsert, whenever the existing node's source_session equals
the current session id, or the trimmed LLM response is the literal
`NO_UPDATE`, or the trimmed response is shorter than 20 characters. -/
theorem relational_skip_frame (now : ℤ) (store : List MemNode)
    (entries : List ParsedEntry) (resp sid : String)
    (h : (∃ n, GetNodeByURI store relationalURI = some n ∧ n.SourceSession = sid) ∨
      trimSpace resp = "NO_UPDATE" ∨ (trimSpace resp).length < 20) :
    applyRelational now store entries resp sid = .ok store := by
  unfold applyRelational
  suffices hs :
      extractRelational entries (GetNodeByURI store relationalURI) resp sid = none by
    rw [hs]
  unfold extractRelational
  rcases h with ⟨n, hn, hsrc⟩ | hresp
  · rw [hn]
    simp [hsrc]
  · cases hGet : GetNodeByURI store relationalURI with
    | none => rcases hresp with h1 | h2 <;> simp_all
    | some n => rcases hresp with h1 | h2 <;> split_ifs <;> simp_all

/-- Witness for C9: a `NO_UPDATE` response leaves a concrete store
unchanged. -/
theorem relational_skip_frame_witness :
    applyRelational 5 [] [] "NO_UPDATE" "s" = .ok [] :=
  relational_skip_frame 5 [] [] "NO_UPDATE" "s" (Or.inr (Or.inl (by decide)))

/-! ### Claim C8 — extraction guards and the three-candidate cap -/

/-- C8: `extractMemories` performs no LLM call and upserts nothing when
the transcript has fewer than 3 user messages or the condensed
transcript is shorter than 100 characters; and when the response parses
to more than 3 candidates, the run is identical to a run on just the
first 3 — only those are validated and upserted. -/
theorem extractMemories_guards :
    (∀ (entries : List ParsedEntry) (resp : String)
        (parsed : Except String (List memoryCandidate))
        (simMatch : memoryCandidate → Option String) (sid : String),
      CountUserMessages entries < 3 →
        extractMemories entries resp parsed simMatch sid = ⟨false, []⟩) ∧
    (∀ (entries : List ParsedEntry) (resp : String)
        (parsed : Except String (List memoryCandidate))
        (simMatch : memoryCandidate → Option String) (sid : String),
      (Condense entries).length < 100 →
        extractMemories entries resp parsed simMatch sid = ⟨false, []⟩) ∧
    (∀ (entries : List ParsedEntry) (resp : String)
        (cs : List memoryCandidate)
        (simMatch : memoryCandidate → Option String) (sid : String),
      3 < cs.length →
        extractMemories entries resp (.ok cs) simMatch sid =
          extractMemories entries resp (.ok (cs.take 3)) simMatch sid) := by
  refine ⟨?_, ?_, ?_⟩
  · intro entries resp parsed simMatch sid h
    unfold extractMemories
    simp [h]
  · intro entries resp parsed simMatch sid h
    unfold extractMemories
    split_ifs <;> simp_all
  · intro entries resp cs simMatch sid h
    unfold extractMemories
    have hlen : ¬ 3 < (cs.take 3).length := by
      simp [List.length_take]
    split_ifs <;> simp_all

/-- Three one-word user messages: enough users, but condensed far below
100 characters. -/
def c8shortEntries : List ParsedEntry :=
  [⟨"user", "user", "hi"⟩, ⟨"user", "user", "yo"⟩, ⟨"user", "user", "ok"⟩]

/-- Four parsed candidates for the cap witness. -/
def c8cand (k : String) : memoryCandidate := ⟨"events", k, "l0", "l1", "l2", ""⟩

/-- Witness for C8 at concrete inputs: an empty transcript (0 user
messages), a three-short-message transcript (condensed length below
100), and a four-candidate parse equal to its first-three run. -/
theorem extractMemories_guards_witness :
    extractMemories [] "" (.error "no array") (fun _ => none) "s" = ⟨false, []⟩ ∧
    extractMemories c8shortEntries "resp" (.error "no array") (fun _ => none) "s" =
      ⟨false, []⟩ ∧
    extractMemories c8shortEntries "resp"
        (.ok [c8cand "a", c8cand "b", c8cand "c", c8cand "d"]) (fun _ => none) "s" =
      extractMemories c8shortEntries "resp"
        (.ok ([c8cand "a", c8cand "b", c8cand "c", c8cand "d"].take 3))
        (fun _ => none) "s" :=
  ⟨extractMemories_guards.1 [] "" (.error "no array") (fun _ => none) "s" (by decide),
   extractMemories_guards.2.1 c8shortEntries "resp" (.error "no array")
     (fun _ => none) "s" (by decide),
   extractMemories_guards.2.2 c8shortEntries "resp"
     [c8cand "a", c8cand "b", c8cand "c", c8cand "d"] (fun _ => none) "s" (by decide)⟩

/-! ### Claim C5 — DecayAllNodes -/

/-- The floor `if decay < 0.1 then 0.1 else decay` is exactly
`max 0.1 decay`. -/
theorem ite_floor_eq_max (d : ℚ) :
    (if d < 0.1 then (0.1 : ℚ) else d) = max 0.1 d := by
  split_ifs with hd
  · exact (max_eq_left hd.le).symm
  · exact (max_eq_right (not_lt.mp hd)).symm

/-- C5: `DecayAllNodes` touches exactly the leaf rows whose URI is not the
reserved relational URI; for such a row with
`elapsed = now - (last_access ?? created_at)` it is a no-op when
`elapsed ≤ 0`, and otherwise writes `max(0.1, 0.5^(elapsed/90d))` to
relevance if and only if that value is strictly below the current
relevance; relevance never increases, a written value is never below
0.1, no other column changes, and the relational node is never
modified. -/
theorem decayAllNodes_spec (now : ℤ) (store : List MemNode) (i : ℕ)
    (h : i < store.length) :
    ∃ h2 : i < (DecayAllNodes now store).length,
      (DecayAllNodes now store).get ⟨i, h2⟩ =
        { store.get ⟨i, h⟩ with
          Relevance := ((DecayAllNodes now store).get ⟨i, h2⟩).Relevance } ∧
      ((DecayAllNodes now store).get ⟨i, h2⟩).Relevance ≤ (store.get ⟨i, h⟩).Relevance ∧
      (¬ ((store.get ⟨i, h⟩).NodeType = "leaf" ∧ (store.get ⟨i, h⟩).URI ≠ relationalURI) →
        (DecayAllNodes now store).get ⟨i, h2⟩ = store.get ⟨i, h⟩) ∧
      ((store.get ⟨i, h⟩).NodeType = "leaf" → (store.get ⟨i, h⟩).URI ≠ relationalURI →
        (((now - (store.get ⟨i, h⟩).LastAccess.getD (store.get ⟨i, h⟩).CreatedAt : ℤ) : ℚ) ≤ 0 →
          (DecayAllNodes now store).get ⟨i, h2⟩ = store.get ⟨i, h⟩) ∧
        (0 < ((now - (store.get ⟨i, h⟩).LastAccess.getD (store.get ⟨i, h⟩).CreatedAt : ℤ) : ℚ) →
          (max 0.1 (pow05 (((now - (store.get ⟨i, h⟩).LastAccess.getD (store.get ⟨i, h⟩).CreatedAt : ℤ) : ℚ) / halfLifeMs)) <
              (store.get ⟨i, h⟩).Relevance →
            (DecayAllNodes now store).get ⟨i, h2⟩ =
              { store.get ⟨i, h⟩ with
                Relevance := max 0.1 (pow05 (((now - (store.get ⟨i, h⟩).LastAccess.getD (store.get ⟨i, h⟩).CreatedAt : ℤ) : ℚ) / halfLifeMs)) } ∧
            0.1 ≤ ((DecayAllNodes now store).get ⟨i, h2⟩).Relevance) ∧
          ((store.get ⟨i, h⟩).Relevance ≤
              max 0.1 (pow05 (((now - (store.get ⟨i, h⟩).LastAccess.getD (store.get ⟨i, h⟩).CreatedAt : ℤ) : ℚ) / halfLifeMs)) →
            (DecayAllNodes now store).get ⟨i, h2⟩ = store.get ⟨i, h⟩))) := by
  have h2 : i < (DecayAllNodes now store).length := by
    simpa [DecayAllNodes] using h
  refine ⟨h2, ?_⟩
  have hm : (DecayAllNodes now store).get ⟨i, h2⟩ = decayNode now (store.get ⟨i, h⟩) := by
    simp [DecayAllNodes]
  set n := store.get ⟨i, h⟩
  rw [hm]
  unfold decayNode
  simp only [ite_floor_eq_max]
  split_ifs with hleaf helapsed hge
  · -- leaf, elapsed ≤ 0: unchanged
    exact ⟨rfl, le_refl _, fun _ => rfl,
      fun _ _ => ⟨fun _ => rfl, fun hpos => absurd helapsed (not_le.mpr hpos)⟩⟩
  · -- leaf, elapsed > 0, newRel ≥ relevance: unchanged
    exact ⟨rfl, le_refl _, fun _ => rfl,
      fun _ _ => ⟨fun _ => rfl,
        fun _ => ⟨fun hlt => absurd hge (not_le.mpr hlt), fun _ => rfl⟩⟩⟩
  · -- leaf, elapsed > 0, newRel < relevance: updated
    have hlt := not_le.mp hge
    exact ⟨rfl, hlt.le, fun hcontra => absurd hleaf hcontra,
      fun _ _ => ⟨fun hle => absurd hle helapsed,
        fun _ => ⟨fun _ => ⟨rfl, le_max_left _ _⟩,
          fun hge2 => absurd hge2 (not_le.mpr hlt)⟩⟩⟩
  · -- not a decayable row: unchanged
    exact ⟨rfl, le_refl _, fun _ => rfl, fun hl hu => absurd (And.intro hl hu) hleaf⟩

/-- A decayable leaf for the C5 witness. -/
def c5node : MemNode :=
  ⟨7, "mem://user/events/old", "mem://user/events", "leaf", "events",
    "a", "b", "c", false, "", 1, some 0, 0, "s", 0, 0⟩

/-- Witness for C5 at index 0 of a concrete one-row store. -/
theorem decayAllNodes_spec_witness :
    ∃ h2 : 0 < (DecayAllNodes 7776000000 [c5node]).length,
      (DecayAllNodes 7776000000 [c5node]).get ⟨0, h2⟩ =
        { [c5node].get ⟨0, by decide⟩ with
          Relevance := ((DecayAllNodes 7776000000 [c5node]).get ⟨0, h2⟩).Relevance } ∧
      ((DecayAllNodes 7776000000 [c5node]).get ⟨0, h2⟩).Relevance ≤ ([c5node].get ⟨0, by decide⟩).Relevance ∧
      (¬ (([c5node].get ⟨0, by decide⟩).NodeType = "leaf" ∧ ([c5node].get ⟨0, by decide⟩).URI ≠ relationalURI) →
        (DecayAllNodes 7776000000 [c5node]).get ⟨0, h2⟩ = [c5node].get ⟨0, by decide⟩) ∧
      (([c5node].get ⟨0, by decide⟩).NodeType = "leaf" → ([c5node].get ⟨0, by decide⟩).URI ≠ relationalURI →
        (((7776000000 - ([c5node].get ⟨0, by decide⟩).LastAccess.getD ([c5node].get ⟨0, by decide⟩).CreatedAt : ℤ) : ℚ) ≤ 0 →
          (DecayAllNodes 7776000000 [c5node]).get ⟨0, h2⟩ = [c5node].get ⟨0, by decide⟩) ∧
        (0 < ((7776000000 - ([c5node].get ⟨0, by decide⟩).LastAccess.getD ([c5node].get ⟨0, by decide⟩).CreatedAt : ℤ) : ℚ) →
          (max 0.1 (pow05 (((7776000000 - ([c5node].get ⟨0, by decide⟩).LastAccess.getD ([c5node].get ⟨0, by decide⟩).CreatedAt : ℤ) : ℚ) / halfLifeMs)) <
              ([c5node].get ⟨0, by decide⟩).Relevance →
            (DecayAllNodes 7776000000 [c5node]).get ⟨0, h2⟩ =
              { [c5node].get ⟨0, by decide⟩ with
                Relevance := max 0.1 (pow05 (((7776000000 - ([c5node].get ⟨0, by decide⟩).LastAccess.getD ([c5node].get ⟨0, by decide⟩).CreatedAt : ℤ) : ℚ) / halfLifeMs)) } ∧
            0.1 ≤ ((DecayAllNodes 7776000000 [c5node]).get ⟨0, h2⟩).Relevance) ∧
          (([c5node].get ⟨0, by decide⟩).Relevance ≤
              max 0.1 (pow05 (((7776000000 - ([c5node].get ⟨0, by decide⟩).LastAccess.getD ([c5node].get ⟨0, by decide⟩).CreatedAt : ℤ) : ℚ) / halfLifeMs)) →
            (DecayAllNodes 7776000000 [c5node]).get ⟨0, h2⟩ = [c5node].get ⟨0, by decide⟩))) :=
  decayAllNodes_spec 7776000000 [c5node] 0 (by decide)

/-! ### Claim C4 — UpsertNode case split -/

/-- A fold whose step only ever appends rows yields an extension of its
start state. -/
theorem foldl_extension {β : Type} (f : List MemNode → β → List MemNode)
    (hf : ∀ st b, ∃ ex, f st b = st ++ ex) :
    ∀ (l : List β) (st : List MemNode), ∃ ex, l.foldl f st = st ++ ex := by
  intro l
  induction l with
  | nil => exact fun st => ⟨[], by simp⟩
  | cons b rest ih =>
    intro st
    obtain ⟨ex1, he1⟩ := hf st b
    obtain ⟨ex2, he2⟩ := ih (f st b)
    exact ⟨ex1 ++ ex2, by rw [List.foldl_cons, he2, he1, List.append_assoc]⟩

/-- Function `EnsureParentDirs` only appends directory rows: the result extends the
input store. -/
theorem ensureParentDirs_extension (now : ℤ) (store : List MemNode)
    (uri category : String) :
    ∃ ex, EnsureParentDirs now store uri category = store ++ ex := by
  unfold EnsureParentDirs
  dsimp only
  split
  · exact ⟨[], by simp⟩
  · apply foldl_extension
    intro st i
    cases hfind : st.find? (fun n => n.URI == ("mem://" ++ joinParts ((uriSegments uri).take i))) with
    | some _ => exact ⟨[], by simp [hfind]⟩
    | none =>
      refine ⟨[mkDirNode (nextId st)
        ("mem://" ++ joinParts ((uriSegments uri).take i))
        (if 1 < i then "mem://" ++ joinParts ((uriSegments uri).take (i - 1)) else "")
        category now], ?_⟩
      simp [hfind]

/-- A successful `CreateNode` appends the stored row (after possible
directory rows) and fixes its columns from the caller's struct and the
INSERT defaults. -/
theorem createNode_ok_shape (now : ℤ) (store : List MemNode) (node : MemNode)
    (store2 : List MemNode) (stored : MemNode)
    (h : CreateNode now store node = .ok (store2, stored)) :
    (∃ ex, store2 = (store ++ ex) ++ [stored]) ∧
      stored.URI = node.URI ∧ stored.L0Abstract = node.L0Abstract ∧
      stored.L1Overview = node.L1Overview ∧ stored.L2Content = node.L2Content ∧
      stored.CreatedAt = now ∧ stored.Relevance = 1 := by
  unfold CreateNode at h
  dsimp only at h
  split at h
  · exact absurd h (by simp)
  · simp only [Except.ok.injEq, Prod.mk.injEq] at h
    obtain ⟨h1, h2⟩ := h
    obtain ⟨ex, hex⟩ := ensureParentDirs_extension now store node.URI node.Category
    subst h2
    refine ⟨⟨ex, ?_⟩, rfl, rfl, rfl, rfl, rfl, rfl⟩
    rw [← h1, hex]

/-- C4: the `UpsertNode` case split.  (1) No node at the URI: a fresh node
is created at that URI (old rows retained).  (2) Existing mergeable node
with both `l0` and `l1` near-identical (>95% bigram Jaccard, computed by
`textNearIdentical`): the call is a no-op and the store is unchanged.
(3) Existing mergeable node, meaningfully different content: the node is
updated in place — same URI and id, content tiers and source_session
replaced, `updated_at` set to `now`, no row added or removed.
(4) Existing immutable node: a second node is created whose URI is the
requested URI suffixed with the current millisecond timestamp, and the
two stored rows have distinct URIs. -/
theorem upsertNode_cases (now : ℤ) (store : List MemNode) (node : MemNode) :
    (GetNodeByURI store node.URI = none →
      ∀ store2, UpsertNode now store node = .ok store2 →
        ∃ stored, stored ∈ store2 ∧ stored.URI = node.URI ∧
          stored.L0Abstract = node.L0Abstract ∧
          stored.L1Overview = node.L1Overview ∧
          stored.L2Content = node.L2Content ∧
          stored.CreatedAt = now ∧ stored.Relevance = 1 ∧
          ∀ m ∈ store, m ∈ store2) ∧
    (∀ e, GetNodeByURI store node.URI = some e → e.Mergeable = true →
      textNearIdentical e.L1Overview node.L1Overview = true →
      textNearIdentical e.L0Abstract node.L0Abstract = true →
      UpsertNode now store node = .ok store) ∧
    (∀ e, GetNodeByURI store node.URI = some e → e.Mergeable = true →
      ¬ (textNearIdentical e.L1Overview node.L1Overview = true ∧
          textNearIdentical e.L0Abstract node.L0Abstract = true) →
      ∃ store2, UpsertNode now store node = .ok store2 ∧
        store2.length = store.length ∧
        ({ e with
          L0Abstract := node.L0Abstract
          L1Overview := node.L1Overview
          L2Content := node.L2Content
          SourceSession := node.SourceSession
          UpdatedAt := now } ∈ store2)) ∧
    (∀ e, GetNodeByURI store node.URI = some e → e.Mergeable = false →
      ∀ store2, UpsertNode now store node = .ok store2 →
        ∃ stored, stored ∈ store2 ∧
          stored.URI = node.URI ++ "-" ++ toString now ∧
          e ∈ store2 ∧ stored.URI ≠ e.URI) := by
  refine ⟨?_, ?_, ?_, ?_⟩
  · intro hget store2 h
    unfold UpsertNode at h
    rw [hget] at h
    cases hc : CreateNode now store node with
    | error msg => rw [hc] at h; exact absurd h (by simp [Except.map])
    | ok pair =>
      rw [hc] at h
      simp only [Except.map, Except.ok.injEq] at h
      obtain ⟨⟨ex, hex⟩, hu, h0, h1, h2l, hcr, hrel⟩ :=
        createNode_ok_shape now store node pair.1 pair.2 (by rw [hc])
      refine ⟨pair.2, ?_, hu, h0, h1, h2l, hcr, hrel, ?_⟩
      · rw [← h, hex]; simp
      · intro m hm; rw [← h, hex]; simp [hm]
  · intro e hget he h1 h0
    unfold UpsertNode
    rw [hget]
    simp [he, h1, h0]
  · intro e hget he hdiff
    refine ⟨UpdateNode now store
      { e with
        L0Abstract := node.L0Abstract
        L1Overview := node.L1Overview
        L2Content := node.L2Content
        SourceSession := node.SourceSession }, ?_, ?_, ?_⟩
    · unfold UpsertNode
      rw [hget]
      have hand : (textNearIdentical e.L1Overview node.L1Overview &&
          textNearIdentical e.L0Abstract node.L0Abstract) = false := by
        cases ha : textNearIdentical e.L1Overview node.L1Overview <;>
          cases hb : textNearIdentical e.L0Abstract node.L0Abstract <;> simp_all
      simp [he, hand]
    · simp [UpdateNode]
    · have hmem : e ∈ store := List.mem_of_find?_eq_some hget
      apply List.mem_map.mpr
      exact ⟨e, hmem, by simp⟩
  · intro e hget he store2 h
    unfold UpsertNode at h
    rw [hget] at h
    simp only [he, Bool.false_eq_true, if_false] at h
    cases hc : CreateNode now store { node with URI := node.URI ++ "-" ++ toString now } with
    | error msg => rw [hc] at h; exact absurd h (by simp [Except.map])
    | ok pair =>
      rw [hc] at h
      simp only [Except.map, Except.ok.injEq] at h
      obtain ⟨⟨ex, hex⟩, hu, -, -, -, -, -⟩ :=
        createNode_ok_shape now store _ pair.1 pair.2 (by rw [hc])
      have heuri : e.URI = node.URI := by
        have := List.find?_some hget
        simpa using this
      have hu2 : pair.2.URI = node.URI ++ "-" ++ toString now := by simpa using hu
      refine ⟨pair.2, ?_, hu2, ?_, ?_⟩
      · rw [← h, hex]; simp
      · rw [← h, hex]; simp [List.mem_of_find?_eq_some hget]
      · rw [hu2, heuri]
        intro heq
        have hlen := congrArg String.length heq
        simp only [String.length_append] at hlen
        have hdash : "-".length = 1 := rfl
        omega

/-- Fresh leaf for the C4 create case. -/
def c4new : MemNode :=
  ⟨0, "mem://user/events/n", "", "leaf", "events", "l0x", "l1x", "l2x",
    false, "", 0, none, 0, "sess", 0, 0⟩

/-- The store produced by the C4 create case. -/
def c4store1 : List MemNode := ((UpsertNode 5 [] c4new).toOption).getD []

/-- Existing mergeable row for the C4 no-op case. -/
def c4e2 : MemNode :=
  ⟨3, "mem://user/preferences/p", "mem://user/preferences", "leaf",
    "preferences", "same l0", "same l1", "old l2", true, "", 1, none, 0,
    "old", 1, 1⟩

/-- Incoming candidate with identical `l0`/`l1` (different `l2`). -/
def c4m2 : MemNode :=
  ⟨0, "mem://user/preferences/p", "", "leaf", "preferences", "same l0",
    "same l1", "new l2", false, "", 0, none, 0, "new", 0, 0⟩

/-- Existing mergeable row for the C4 update case. -/
def c4e3 : MemNode :=
  ⟨4, "mem://user/profile/q", "mem://user/profile", "leaf", "profile",
    "profile abstract", "profile overview text", "x", true, "", 1, none,
    0, "old", 1, 1⟩

/-- Incoming candidate with meaningfully different content. -/
def c4m3 : MemNode :=
  ⟨0, "mem://user/profile/q", "", "leaf", "profile", "new abstract", "",
    "y", false, "", 0, none, 0, "new", 0, 0⟩

/-- Existing immutable row for the C4 suffix case. -/
def c4e4 : MemNode :=
  ⟨5, "mem://user/events/imm", "mem://user/events", "leaf", "events",
    "a", "b", "c", false, "", 1, none, 0, "old", 1, 1⟩

/-- Incoming candidate at the same immutable URI. -/
def c4m4 : MemNode :=
  ⟨0, "mem://user/events/imm", "", "leaf", "events", "a2", "b2", "c2",
    false, "", 0, none, 0, "new", 0, 0⟩

/-- The store produced by the C4 suffix case. -/
def c4store4 : List MemNode := ((UpsertNode 5 [c4e4] c4m4).toOption).getD []

/-- Witness for C4: all four cases run at concrete inputs. -/
theorem upsertNode_cases_witness :
    (∃ stored, stored ∈ c4store1 ∧ stored.URI = c4new.URI ∧
      stored.L0Abstract = c4new.L0Abstract ∧
      stored.L1Overview = c4new.L1Overview ∧
      stored.L2Content = c4new.L2Content ∧
      stored.CreatedAt = 5 ∧ stored.Relevance = 1 ∧
      ∀ m ∈ ([] : List MemNode), m ∈ c4store1) ∧
    UpsertNode 5 [c4e2] c4m2 = .ok [c4e2] ∧
    (∃ store2, UpsertNode 5 [c4e3] c4m3 = .ok store2 ∧
      store2.length = [c4e3].length ∧
      ({ c4e3 with
        L0Abstract := c4m3.L0Abstract
        L1Overview := c4m3.L1Overview
        L2Content := c4m3.L2Content
        SourceSession := c4m3.SourceSession
        UpdatedAt := 5 } ∈ store2)) ∧
    (∃ stored, stored ∈ c4store4 ∧
      stored.URI = c4m4.URI ++ "-" ++ toString (5 : ℤ) ∧
      c4e4 ∈ c4store4 ∧ stored.URI ≠ c4e4.URI) :=
  ⟨(upsertNode_cases 5 [] c4new).1 (by decide) c4store1 (by decide),
   (upsertNode_cases 5 [c4e2] c4m2).2.1 c4e2 (by decide) (by decide)
     (by decide) (by decide),
   (upsertNode_cases 5 [c4e3] c4m3).2.2.1 c4e3 (by decide) (by decide)
     (by decide),
   (upsertNode_cases 5 [c4e4] c4m4).2.2.2 c4e4 (by decide) (by decide)
     c4store4 (by decide)⟩

/-! ### Claim C1 — context builder score formula -/

/-- A leaf in the candidate pool with `access_count = 1`. -/
def c1node : MemNode :=
  ⟨1, "mem://user/profile/p", "mem://user/profile", "leaf", "profile",
    "a", "b", "c", true, "", 1, none, 1, "s", 0, 0⟩

/-- Evaluating the context pool on the one-leaf store. -/
theorem c1_items_eval :
    buildContextItems [c1node] = [⟨"profile", "a", nodeScore c1node⟩] := by
  simp [buildContextItems, FindByCategory, contextCategories, c1node,
    relationalURI, List.insertionSort, List.orderedInsert]

/-- C1 counterexample: for the pooled leaf with relevance 1 and
access_count 1 the computed ranking score is
`1 * (1 + log2 1) = 1`, while the claimed formula
`relevance * (1 + log2(1 + access_count))` gives `1 * (1 + log2 2) = 2`;
the code's score differs from the claimed one at this input. -/
theorem contextScore_formula_counterexample :
    buildContextItems [c1node] = [⟨"profile", "a", nodeScore c1node⟩] ∧
    nodeScore c1node = 1 ∧ nodeScoreSpecFormula c1node = 2 ∧
    nodeScore c1node ≠ nodeScoreSpecFormula c1node := by
  have ha : nodeScore c1node = 1 := by
    simp [nodeScore, c1node, Real.logb_one]
  have hb : nodeScoreSpecFormula c1node = 2 := by
    simp only [nodeScoreSpecFormula, c1node]
    rw [show ((1 : ℚ) : ℝ) = 1 by norm_num]
    rw [show (1 : ℝ) + ((1 : ℤ) : ℝ) = 2 by norm_num]
    rw [Real.logb_self_eq_one (by norm_num)]
    norm_num
  refine ⟨c1_items_eval, ha, hb, ?_⟩
  rw [ha, hb]
  norm_num

/-- C1 (amended): every item ranked by the context builder's top-15 pool
comes from a stored leaf of its category, outside the relational URI,
with non-empty `l0_abstract` and relevance at least 0.3; its score is
`relevance * (1 + log2(access_count))` when `access_count ≥ 1` and plain
`relevance` when `access_count = 0` — the spec's
`relevance * (1 + log2(1 + access_count))` holds only at
`access_count = 0`. -/
theorem contextItems_score (store : List MemNode) (it : RankedItem)
    (hit : it ∈ buildContextItems store) :
    ∃ n, n ∈ store ∧ n.NodeType = "leaf" ∧ n.Category = it.category ∧
      n.URI ≠ relationalURI ∧ n.L0Abstract ≠ "" ∧ (0.3 : ℚ) ≤ n.Relevance ∧
      it.l0 = n.L0Abstract ∧
      it.score = (n.Relevance : ℝ) *
        (if 0 < n.AccessCount then 1 + Real.logb 2 ((n.AccessCount : ℤ) : ℝ)
          else 1) := by
  unfold buildContextItems at hit
  dsimp only at hit
  have h1 := List.mem_of_mem_take hit
  rw [List.mem_insertionSort, List.mem_flatten] at h1
  obtain ⟨l, hl, hit2⟩ := h1
  rw [List.mem_map] at hl
  obtain ⟨cat, hcat, rfl⟩ := hl
  rw [List.mem_filterMap] at hit2
  obtain ⟨n, hn, hsome⟩ := hit2
  have hn2 : n ∈ store ∧ n.Category = cat ∧ n.NodeType = "leaf" := by
    unfold FindByCategory at hn
    rw [List.mem_insertionSort, List.mem_filter] at hn
    refine ⟨hn.1, ?_, ?_⟩
    · have := hn.2
      simp only [Bool.and_eq_true, beq_iff_eq] at this
      exact this.1
    · have := hn.2
      simp only [Bool.and_eq_true, beq_iff_eq] at this
      exact this.2
  by_cases hrel : n.URI == relationalURI
  · simp [hrel] at hsome
  · by_cases hskip : (n.L0Abstract == "" || decide (n.Relevance < 0.3)) = true
    · simp [hrel, hskip] at hsome
    · simp only [hrel, Bool.false_eq_true, if_false, hskip, Option.some.injEq] at hsome
      have hsplit : n.L0Abstract ≠ "" ∧ ¬ (n.Relevance < 0.3) := by
        simpa [not_or] using hskip
      refine ⟨n, hn2.1, hn2.2.2, ?_, ?_, hsplit.1, not_lt.mp hsplit.2, ?_, ?_⟩
      · rw [← hsome]; exact hn2.2.1
      · simpa using hrel
      · rw [← hsome]
      · rw [← hsome]
        rfl

/-- Witness for the amended C1 at the concrete one-leaf store. -/
theorem contextItems_score_witness :
    ∃ n, n ∈ [c1node] ∧ n.NodeType = "leaf" ∧
      n.Category = RankedItem.category ⟨"profile", "a", nodeScore c1node⟩ ∧
      n.URI ≠ relationalURI ∧ n.L0Abstract ≠ "" ∧ (0.3 : ℚ) ≤ n.Relevance ∧
      RankedItem.l0 ⟨"profile", "a", nodeScore c1node⟩ = n.L0Abstract ∧
      RankedItem.score ⟨"profile", "a", nodeScore c1node⟩ = (n.Relevance : ℝ) *
        (if 0 < n.AccessCount then 1 + Real.logb 2 ((n.AccessCount : ℤ) : ℝ)
          else 1) :=
  contextItems_score [c1node] ⟨"profile", "a", nodeScore c1node⟩
    (by rw [c1_items_eval]; exact List.mem_singleton.mpr rfl)

/-! ### Claim C6 — Find result list -/

instance : IsTotal SearchResult (fun a b => b.Score ≤ a.Score) :=
  ⟨fun a b => le_total b.Score a.Score⟩

instance : IsTrans SearchResult (fun a b => b.Score ≤ a.Score) :=
  ⟨fun _ _ _ hab hbc => le_trans hbc hab⟩

/-- C6: every element of a `find` result list carries the score
`cos(queryVec, nodeVec) * relevance` of some stored vector for its node,
every score is strictly positive, only leaves matching the requested
category (when one is requested) appear, scores are non-increasing in
list order, and the list length is at most the effective limit
(`opts.limit`, default 10). -/
theorem find_spec (embed : String → List ℝ) (query : String)
    (vectors : List VectorRecord) (nodes : List MemNode) (opts : SearchOpts)
    (r : SearchResult) (hr : r ∈ Find embed query vectors nodes opts) :
    (∃ v ∈ vectors, v.NodeID = r.Node.ID ∧
      r.Similarity = CosineSimilarity (embed query) v.Embedding) ∧
    r.Score = r.Similarity * (r.Node.Relevance : ℝ) ∧
    0 < r.Score ∧
    r.Node ∈ nodes ∧ r.Node.NodeType = "leaf" ∧
    (opts.Category ≠ "" → r.Node.Category = opts.Category) ∧
    List.Pairwise (fun a b => b.Score ≤ a.Score)
      (Find embed query vectors nodes opts) ∧
    (Find embed query vectors nodes opts).length ≤ opts.limit.toNat := by
  by_cases hv : vectors.isEmpty
  · rw [Find, if_pos hv] at hr
    exact absurd hr (by simp)
  · have hEq : Find embed query vectors nodes opts =
        (List.insertionSort (fun a b : SearchResult => b.Score ≤ a.Score)
          (vectors.filterMap (findScore (embed query) nodes opts))).take
          opts.limit.toNat := by
      rw [Find, if_neg hv]
    rw [hEq] at hr
    have hr2 : r ∈ vectors.filterMap (findScore (embed query) nodes opts) := by
      have := List.mem_of_mem_take hr
      rwa [List.mem_insertionSort] at this
    rw [List.mem_filterMap] at hr2
    obtain ⟨v, hvmem, hbody⟩ := hr2
    unfold findScore at hbody
    cases hfind : nodes.find? (fun n => n.ID == v.NodeID) with
    | none => rw [hfind] at hbody; exact absurd hbody (by simp)
    | some node =>
      rw [hfind] at hbody
      dsimp only at hbody
      by_cases hcat : opts.Category ≠ "" ∧ node.Category ≠ opts.Category
      · rw [if_pos hcat] at hbody; exact absurd hbody (by simp)
      · rw [if_neg hcat] at hbody
        by_cases hleaf : node.NodeType ≠ "leaf"
        · rw [if_pos hleaf] at hbody; exact absurd hbody (by simp)
        · rw [if_neg hleaf] at hbody
          by_cases hscore :
              0 < CosineSimilarity (embed query) v.Embedding * (node.Relevance : ℝ)
          · rw [if_pos hscore] at hbody
            rw [Option.some.injEq] at hbody
            subst hbody
            have hnodeid : node.ID = v.NodeID := by
              simpa using List.find?_some hfind
            refine ⟨⟨v, hvmem, hnodeid.symm, rfl⟩, rfl, hscore, ?_, ?_, ?_, ?_, ?_⟩
            · exact List.mem_of_find?_eq_some hfind
            · exact not_not.mp hleaf
            · intro hne
              by_contra hnc
              exact hcat ⟨hne, hnc⟩
            · rw [hEq]
              exact (List.sorted_insertionSort _ _).sublist (List.take_sublist _ _)
            · rw [hEq]
              exact List.length_take_le _ _
          · rw [if_neg hscore] at hbody; exact absurd hbody (by simp)

/-- Cosine similarity of the unit one-dimensional vector with itself. -/
theorem cos_one : CosineSimilarity [1] [1] = 1 := by
  unfold CosineSimilarity
  norm_num [Real.sqrt_one]

/-- The stored leaf for the C6 and C7 witnesses. -/
def c6node : MemNode :=
  ⟨1, "mem://user/events/v", "", "leaf", "events", "a", "b", "c",
    false, "", 1, none, 0, "s", 0, 0⟩

/-- Its stored vector. -/
def c6vec : VectorRecord := ⟨1, [1]⟩

/-- The embedder oracle for the witnesses. -/
def c6embed : String → List ℝ := fun _ => [1]

/-- The single result the witness stores produce. -/
def c6res : SearchResult := ⟨c6node, 1, 1⟩

/-- Function `Find` evaluated at the concrete one-vector store. -/
theorem c6_find_eval (opts : SearchOpts) (hcat : opts.Category = "")
    (hlim : 1 ≤ opts.limit.toNat) :
    Find c6embed "q" [c6vec] [c6node] opts = [c6res] := by
  have hcos : CosineSimilarity (c6embed "q") c6vec.Embedding = 1 := cos_one
  have hbody : findScore (c6embed "q") [c6node] opts c6vec = some c6res := by
    unfold findScore
    rw [show ([c6node].find? (fun n => n.ID == c6vec.NodeID)) = some c6node by decide]
    simp only [hcat, hcos, c6res, c6node]
    norm_num
  rw [Find, if_neg (by decide)]
  rw [show List.filterMap (findScore (c6embed "q") [c6node] opts) [c6vec] =
    [c6res] by simp [List.filterMap_cons, hbody]]
  rw [show List.insertionSort (fun a b : SearchResult => b.Score ≤ a.Score)
      [c6res] = [c6res] from rfl]
  cases hn : opts.limit.toNat with
  | zero => omega
  | succ k => simp

/-- Witness for C6 at the concrete one-vector store. -/
theorem find_spec_witness :
    (∃ v ∈ [c6vec], v.NodeID = c6res.Node.ID ∧
      c6res.Similarity = CosineSimilarity (c6embed "q") v.Embedding) ∧
    c6res.Score = c6res.Similarity * (c6res.Node.Relevance : ℝ) ∧
    0 < c6res.Score ∧
    c6res.Node ∈ [c6node] ∧ c6res.Node.NodeType = "leaf" ∧
    (SearchOpts.Category ⟨0, ""⟩ ≠ "" →
      c6res.Node.Category = SearchOpts.Category ⟨0, ""⟩) ∧
    List.Pairwise (fun a b => b.Score ≤ a.Score)
      (Find c6embed "q" [c6vec] [c6node] ⟨0, ""⟩) ∧
    (Find c6embed "q" [c6vec] [c6node] ⟨0, ""⟩).length ≤
      (SearchOpts.limit ⟨0, ""⟩).toNat :=
  find_spec c6embed "q" [c6vec] [c6node] ⟨0, ""⟩ c6res
    (by rw [c6_find_eval ⟨0, ""⟩ rfl (by decide)]; exact List.mem_singleton.mpr rfl)

/-! ### Claim C7 — Search result list -/

/-- The dedup-map invariant of `Search`'s sub-query loop: node ids in the
map are pairwise distinct, every kept entry is one of the occurrences
and carries the maximal score among occurrences with its id, and every
occurrence id is represented in the map. -/
def seenInvariant (seen occs : List SearchResult) : Prop :=
  (seen.map (fun s => s.Node.ID)).Nodup ∧
  (∀ s ∈ seen, s ∈ occs ∧
    ∀ o ∈ occs, o.Node.ID = s.Node.ID → o.Score ≤ s.Score) ∧
  (∀ o ∈ occs, ∃ t ∈ seen, t.Node.ID = o.Node.ID)

/-- Function `searchInsert` preserves the dedup-map invariant. -/
theorem searchInsert_invariant (seen occs : List SearchResult) (r : SearchResult)
    (h : seenInvariant seen occs) :
    seenInvariant (searchInsert seen r) (occs ++ [r]) := by
  obtain ⟨hnodup, hmax, hcover⟩ := h
  cases hfind : seen.find? (fun s => s.Node.ID == r.Node.ID) with
  | none =>
    have hres : searchInsert seen r = seen ++ [r] := by
      unfold searchInsert; rw [hfind]
    have hnone : ∀ s ∈ seen, s.Node.ID ≠ r.Node.ID := by
      intro s hs
      have := List.find?_eq_none.mp hfind s hs
      simpa using this
    rw [hres]
    refine ⟨?_, ?_, ?_⟩
    · rw [List.map_append, List.nodup_append]
      refine ⟨hnodup, by simp, ?_⟩
      intro a ha hb
      rw [List.mem_map] at ha
      obtain ⟨s, hs, rfl⟩ := ha
      have hb2 : s.Node.ID = r.Node.ID := by simpa using hb
      exact hnone s hs hb2
    · intro s hs
      rcases List.mem_append.mp hs with hs1 | hs2
      · obtain ⟨hso, hsm⟩ := hmax s hs1
        refine ⟨List.mem_append_left _ hso, ?_⟩
        intro o ho hid
        rcases List.mem_append.mp ho with ho1 | ho2
        · exact hsm o ho1 hid
        · have hor : o = r := by simpa using ho2
          exact absurd (hid.symm.trans (congrArg (fun x => x.Node.ID) hor))
            (hnone s hs1)
      · have hsr : s = r := by simpa using hs2
        refine ⟨List.mem_append_right _ (by rw [hsr]; simp), ?_⟩
        intro o ho hid
        rcases List.mem_append.mp ho with ho1 | ho2
        · obtain ⟨t, ht, htid⟩ := hcover o ho1
          exact absurd
            (htid.trans (hid.trans (congrArg (fun x => x.Node.ID) hsr)))
            (hnone t ht)
        · have hor : o = r := by simpa using ho2
          rw [hor, hsr]
    · intro o ho
      rcases List.mem_append.mp ho with ho1 | ho2
      · obtain ⟨t, ht, htid⟩ := hcover o ho1
        exact ⟨t, List.mem_append_left _ ht, htid⟩
      · have hor : o = r := by simpa using ho2
        exact ⟨r, List.mem_append_right _ (by simp),
          (congrArg (fun x => x.Node.ID) hor).symm⟩
  | some existing =>
    have hmem_ex : existing ∈ seen := List.mem_of_find?_eq_some hfind
    have hid_ex : existing.Node.ID = r.Node.ID := by
      simpa using List.find?_some hfind
    have huniq : ∀ s ∈ seen, s.Node.ID = r.Node.ID → s = existing := by
      intro s hs hid
      exact List.inj_on_of_nodup_map hnodup hs hmem_ex (by rw [hid, hid_ex])
    by_cases hscore : existing.Score < r.Score
    · have hres : searchInsert seen r =
          seen.map (fun s => if s.Node.ID == r.Node.ID then r else s) := by
        unfold searchInsert
        rw [hfind]
        dsimp only
        rw [if_pos hscore]
      rw [hres]
      have hids_eq :
          ((seen.map (fun s => if s.Node.ID == r.Node.ID then r else s)).map
            (fun s => s.Node.ID)) = seen.map (fun s => s.Node.ID) := by
        rw [List.map_map]
        apply List.map_congr_left
        intro s _
        by_cases hc : (s.Node.ID == r.Node.ID) = true
        · have hc2 : s.Node.ID = r.Node.ID := by simpa using hc
          simp [Function.comp, hc, hc2]
        · simp [Function.comp, hc]
      refine ⟨?_, ?_, ?_⟩
      · rw [hids_eq]; exact hnodup
      · intro t ht
        rw [List.mem_map] at ht
        obtain ⟨s, hs, rfl⟩ := ht
        by_cases hc : (s.Node.ID == r.Node.ID) = true
        · simp only [hc, if_true]
          refine ⟨List.mem_append_right _ (by simp), ?_⟩
          intro o ho hid
          rcases List.mem_append.mp ho with ho1 | ho2
          · have hold := (hmax existing hmem_ex).2 o ho1 (hid.trans hid_ex.symm)
            exact hold.trans hscore.le
          · have hor : o = r := by simpa using ho2
            exact le_of_eq (congrArg (fun x => x.Score) hor)
        · simp only [hc, if_false]
          obtain ⟨hso, hsm⟩ := hmax s hs
          refine ⟨List.mem_append_left _ hso, ?_⟩
          intro o ho hid
          rcases List.mem_append.mp ho with ho1 | ho2
          · exact hsm o ho1 hid
          · have hor : o = r := by simpa using ho2
            have hc2 : s.Node.ID = r.Node.ID :=
              hid.symm.trans (congrArg (fun x => x.Node.ID) hor)
            simp [hc2] at hc
      · intro o ho
        rcases List.mem_append.mp ho with ho1 | ho2
        · obtain ⟨t, ht, htid⟩ := hcover o ho1
          by_cases hc : (t.Node.ID == r.Node.ID) = true
          · refine ⟨r, List.mem_map.mpr ⟨t, ht, by simp [hc]⟩, ?_⟩
            have hc2 : t.Node.ID = r.Node.ID := by simpa using hc
            rw [← hc2]
            exact htid
          · exact ⟨t, List.mem_map.mpr ⟨t, ht, by simp [hc]⟩, htid⟩
        · have hor : o = r := by simpa using ho2
          exact ⟨r, List.mem_map.mpr ⟨existing, hmem_ex, by simp [hid_ex]⟩,
            (congrArg (fun x => x.Node.ID) hor).symm⟩
    · have hres : searchInsert seen r = seen := by
        unfold searchInsert
        rw [hfind]
        dsimp only
        rw [if_neg hscore]
      rw [hres]
      have hkeep : r.Score ≤ existing.Score := not_lt.mp hscore
      refine ⟨hnodup, ?_, ?_⟩
      · intro s hs
        obtain ⟨hso, hsm⟩ := hmax s hs
        refine ⟨List.mem_append_left _ hso, ?_⟩
        intro o ho hid
        rcases List.mem_append.mp ho with ho1 | ho2
        · exact hsm o ho1 hid
        · have hor : o = r := by simpa using ho2
          have hse : s = existing :=
            huniq s hs (hid.symm.trans (congrArg (fun x => x.Node.ID) hor))
          rw [hor, hse]
          exact hkeep
      · intro o ho
        rcases List.mem_append.mp ho with ho1 | ho2
        · exact hcover o ho1
        · have hor : o = r := by simpa using ho2
          exact ⟨existing, hmem_ex,
            hid_ex.trans (congrArg (fun x => x.Node.ID) hor).symm⟩

/-- Folding one sub-query's results into the dedup map preserves the
invariant, with the occurrence stream extended by those results. -/
theorem insertAll_invariant (res : List SearchResult) :
    ∀ (seen occs : List SearchResult), seenInvariant seen occs →
      seenInvariant (res.foldl searchInsert seen) (occs ++ res) := by
  induction res with
  | nil => intro seen occs h; simpa using h
  | cons r rest ih =>
    intro seen occs h
    have h1 := searchInsert_invariant seen occs r h
    have h2 := ih (searchInsert seen r) (occs ++ [r]) h1
    simpa [List.append_assoc] using h2

/-- The invariant holds across the whole sub-query loop. -/
theorem searchFold_invariant (embed : String → List ℝ)
    (vectors : List VectorRecord) (opts : SearchOpts) (now : ℤ) :
    ∀ (sqs : List subQuery) (nodes seen occs : List _),
      seenInvariant seen occs →
        seenInvariant
          (searchFold embed vectors opts now sqs (nodes, seen, occs)).2.1
          (searchFold embed vectors opts now sqs (nodes, seen, occs)).2.2 := by
  intro sqs
  induction sqs with
  | nil => intro nodes seen occs h; simpa [searchFold] using h
  | cons sq rest ih =>
    intro nodes seen occs h
    rw [searchFold]
    exact ih _ _ _ (insertAll_invariant _ _ _ h)

/-- The invariant at the loop's output, from the empty initial state. -/
theorem searchSeen_invariant (embed : String → List ℝ)
    (vectors : List VectorRecord) (nodes : List MemNode) (query : String)
    (subQs : List subQuery) (opts : SearchOpts) (now : ℤ) :
    seenInvariant (searchSeen embed vectors nodes query subQs opts now)
      (searchOccurrences embed vectors nodes query subQs opts now) := by
  unfold searchSeen searchOccurrences
  exact searchFold_invariant embed vectors opts now
    (effectiveSubQueries query subQs) nodes [] [] ⟨by simp, by simp, by simp⟩

/-- C7: in every `search` result list, node ids are pairwise distinct,
each element is the rescoring of a dedup-map entry that is a max-scored
occurrence among all sub-query results with its node id, each final
score is `0.5*similarity + 0.3*relevance + 0.2*parentScore(parent_uri)`
with `parentScore` the mean similarity of the surfaced results sharing
the parent URI (0 for an empty parent), scores are non-increasing, and
the list has at most the effective limit of elements. -/
theorem search_spec (embed : String → List ℝ) (vectors : List VectorRecord)
    (nodes : List MemNode) (query : String) (subQs : List subQuery)
    (opts : SearchOpts) (now : ℤ) (r : SearchResult)
    (hr : r ∈ Search embed vectors nodes query subQs opts now) :
    ((Search embed vectors nodes query subQs opts now).map
      (fun s => s.Node.ID)).Nodup ∧
    (∃ s ∈ searchSeen embed vectors nodes query subQs opts now,
      r = rescore (searchSeen embed vectors nodes query subQs opts now) s) ∧
    r.Score = 0.5 * r.Similarity + 0.3 * (r.Node.Relevance : ℝ) +
      0.2 * (if r.Node.ParentURI = "" then 0
        else
          if ((searchSeen embed vectors nodes query subQs opts now).filter
              (fun s => s.Node.ParentURI == r.Node.ParentURI)).isEmpty then 0
          else (((searchSeen embed vectors nodes query subQs opts now).filter
              (fun s => s.Node.ParentURI == r.Node.ParentURI)).map
              (fun s => s.Similarity)).sum /
            ((((searchSeen embed vectors nodes query subQs opts now).filter
              (fun s => s.Node.ParentURI == r.Node.ParentURI)).length : ℕ) : ℝ)) ∧
    (∀ s ∈ searchSeen embed vectors nodes query subQs opts now,
      s ∈ searchOccurrences embed vectors nodes query subQs opts now ∧
      ∀ o ∈ searchOccurrences embed vectors nodes query subQs opts now,
        o.Node.ID = s.Node.ID → o.Score ≤ s.Score) ∧
    List.Pairwise (fun a b => b.Score ≤ a.Score)
      (Search embed vectors nodes query subQs opts now) ∧
    (Search embed vectors nodes query subQs opts now).length ≤ opts.limit.toNat := by
  have hinv := searchSeen_invariant embed vectors nodes query subQs opts now
  have hEq : Search embed vectors nodes query subQs opts now =
      (List.insertionSort (fun a b : SearchResult => b.Score ≤ a.Score)
        ((searchSeen embed vectors nodes query subQs opts now).map
          (rescore (searchSeen embed vectors nodes query subQs opts now)))).take
        opts.limit.toNat := by
    rw [Search]
  refine ⟨?_, ?_, ?_, fun s hs => hinv.2.1 s hs, ?_, ?_⟩
  · rw [hEq, List.map_take]
    apply List.Nodup.sublist (List.take_sublist _ _)
    have hperm := (List.perm_insertionSort
      (fun a b : SearchResult => b.Score ≤ a.Score)
      ((searchSeen embed vectors nodes query subQs opts now).map
        (rescore (searchSeen embed vectors nodes query subQs opts now)))).map
      (fun s => s.Node.ID)
    rw [List.Perm.nodup_iff hperm]
    rw [List.map_map]
    have hmapeq :
        ((searchSeen embed vectors nodes query subQs opts now).map
          ((fun s => s.Node.ID) ∘
            rescore (searchSeen embed vectors nodes query subQs opts now))) =
        (searchSeen embed vectors nodes query subQs opts now).map
          (fun s => s.Node.ID) := by
      apply List.map_congr_left
      intro s _
      rfl
    rw [hmapeq]
    exact hinv.1
  · rw [hEq] at hr
    have := List.mem_of_mem_take hr
    rw [List.mem_insertionSort, List.mem_map] at this
    obtain ⟨s, hs, hrs⟩ := this
    exact ⟨s, hs, hrs.symm⟩
  · rw [hEq] at hr
    have := List.mem_of_mem_take hr
    rw [List.mem_insertionSort, List.mem_map] at this
    obtain ⟨s, hs, hrs⟩ := this
    subst hrs
    show (rescore _ s).Score = _
    unfold rescore parentScore
    rfl
  · rw [hEq]
    exact (List.sorted_insertionSort _ _).sublist (List.take_sublist _ _)
  · rw [hEq]
    exact List.length_take_le _ _

/-- The rescored single result of the C7 witness run. -/
noncomputable def c7res : SearchResult := rescore [c6res] c6res

/-- Function `Search` evaluated at the concrete one-vector store with no
decomposition (the original query is searched, tagged MEMORY). -/
theorem c7_search_eval :
    Search c6embed [c6vec] [c6node] "q" [] ⟨0, ""⟩ 9 = [c7res] ∧
    searchSeen c6embed [c6vec] [c6node] "q" [] ⟨0, ""⟩ 9 = [c6res] := by
  have hexp : expandedOpts ⟨0, ""⟩ = ⟨30, ""⟩ := by
    unfold expandedOpts SearchOpts.limit
    norm_num
  have hfind : Find c6embed "q" [c6vec] [c6node] (expandedOpts ⟨0, ""⟩) = [c6res] := by
    rw [hexp]
    exact c6_find_eval ⟨30, ""⟩ rfl (by decide)
  have hone : searchInsert [] c6res = [c6res] := by
    unfold searchInsert
    rfl
  have hseen : searchSeen c6embed [c6vec] [c6node] "q" [] ⟨0, ""⟩ 9 = [c6res] := by
    unfold searchSeen
    rw [show effectiveSubQueries "q" ([] : List subQuery) = [⟨"q", "MEMORY"⟩] from rfl]
    rw [searchFold]
    dsimp only
    rw [hfind]
    rw [searchFold]
    simp [hone]
  refine ⟨?_, hseen⟩
  rw [Search]
  rw [hseen]
  rw [show ([c6res].map (rescore [c6res])) = [c7res] from rfl]
  rw [show List.insertionSort (fun a b : SearchResult => b.Score ≤ a.Score)
    [c7res] = [c7res] from rfl]
  rw [show (SearchOpts.limit ⟨0, ""⟩).toNat = 10 from rfl]
  rfl

/-- Witness for C7 at the concrete one-vector store. -/
theorem search_spec_witness :
    ((Search c6embed [c6vec] [c6node] "q" [] ⟨0, ""⟩ 9).map
      (fun s => s.Node.ID)).Nodup ∧
    (∃ s ∈ searchSeen c6embed [c6vec] [c6node] "q" [] ⟨0, ""⟩ 9,
      c7res = rescore (searchSeen c6embed [c6vec] [c6node] "q" [] ⟨0, ""⟩ 9) s) ∧
    c7res.Score = 0.5 * c7res.Similarity + 0.3 * (c7res.Node.Relevance : ℝ) +
      0.2 * (if c7res.Node.ParentURI = "" then 0
        else
          if ((searchSeen c6embed [c6vec] [c6node] "q" [] ⟨0, ""⟩ 9).filter
              (fun s => s.Node.ParentURI == c7res.Node.ParentURI)).isEmpty then 0
          else (((searchSeen c6embed [c6vec] [c6node] "q" [] ⟨0, ""⟩ 9).filter
              (fun s => s.Node.ParentURI == c7res.Node.ParentURI)).map
              (fun s => s.Similarity)).sum /
            ((((searchSeen c6embed [c6vec] [c6node] "q" [] ⟨0, ""⟩ 9).filter
              (fun s => s.Node.ParentURI == c7res.Node.ParentURI)).length : ℕ) : ℝ)) ∧
    (∀ s ∈ searchSeen c6embed [c6vec] [c6node] "q" [] ⟨0, ""⟩ 9,
      s ∈ searchOccurrences c6embed [c6vec] [c6node] "q" [] ⟨0, ""⟩ 9 ∧
      ∀ o ∈ searchOccurrences c6embed [c6vec] [c6node] "q" [] ⟨0, ""⟩ 9,
        o.Node.ID = s.Node.ID → o.Score ≤ s.Score) ∧
    List.Pairwise (fun a b => b.Score ≤ a.Score)
      (Search c6embed [c6vec] [c6node] "q" [] ⟨0, ""⟩ 9) ∧
    (Search c6embed [c6vec] [c6node] "q" [] ⟨0, ""⟩ 9).length ≤
      (SearchOpts.limit ⟨0, ""⟩).toNat :=
  search_spec c6embed [c6vec] [c6node] "q" [] ⟨0, ""⟩ 9 c7res
    (by rw [c7_search_eval.1]; exact List.mem_singleton.mpr rfl)

end Continuity
